import Mathlib

/-!
Shallow embedding of the ZeroDAO challenge game: the `zd-challenges` pallet
(`src/pallets/challenges/src/lib.rs`), the sweeper-fee rules from
`zd-primitives` (`src/primitives/src/lib.rs`), and the commitment/path
verification helpers of the `zd-refresh-seeds` pallet
(`src/pallets/refresh-seeds/src/functions.rs`).

Machine integers are embedded as `Nat` with explicit bounds where the Rust
code performs checked, saturating or wrapping arithmetic (u32, u64, u128).
Fallible Rust functions returning `DispatchResult` become `Except Error`.
A Rust runtime panic (index out of bounds, division by zero) is embedded as
the distinguished error `Error.Panic`.  External collaborators (the trust
graph's `valid_nodes`, the currency's `staking`/`release`, the sha1-based
`make_full_order`) are passed in as parameters or recorded as effects.
-/

namespace ZeroDAO

/-- `AccountId`: abstract account identifiers; `Default::default()` is `0`. -/
abbrev Account := Nat

/-- `Balance = u128`. -/
abbrev Balance := Nat

/-- `2 ^ 32 - 1`, the largest `u32`. -/
def U32MAX : Nat := 4294967295

/-- `2 ^ 64`, one past the largest `u64`. -/
def U64MOD : Nat := 18446744073709551616

/-- `2 ^ 128`, one past the largest `u128`. -/
def U128MOD : Nat := 340282366920938463463374607431768211456

/-- `u32` saturating addition (`saturating_add`). -/
def satAdd32 (a b : Nat) : Nat := min (a + b) U32MAX

/-- `u128` checked addition (`checked_add`). -/
def checkedAdd128 (a b : Nat) : Option Nat :=
  if a + b < U128MOD then some (a + b) else none

/-- The dispatch errors of the challenges pallet together with those of the
refresh-seeds pallet that the embedded functions can produce.  `Panic` stands
for a Rust runtime panic (index out of bounds or division by zero). -/
inductive Error where
  | NoPermission
  | NotMatch
  | Overflow
  | NoChallengeAllowed
  | ReputationError
  | TooSoon
  | ErrProgress
  | NonExistent
  | TooMany
  | PathTooShort
  | NoTargetNode
  | PathTooLong
  | OrderNotMatch
  | LengthTooLong
  | ScoreMismatch
  | IndexExceedsMaximum
  | PathIndexError
  | AlreadyExist
  | LengthNotEqual
  | MaximumDepth
  | DataEmpty
  | DataDuplication
  | ResultHashNotExit
  | Panic
deriving DecidableEq

/-- Whether an `Except` computation succeeded. -/
def exceptIsOk {α : Type} : Except Error α → Bool
  | .ok _ => true
  | .error _ => false

/-- `Status` of a challenge record (`challenges/src/lib.rs`); the `Default`
impl returns `EXAMINE`. -/
inductive Status where
  | FREE
  | EXAMINE
  | REPLY
  | EVIDENCE
  | ARBITRATION
deriving DecidableEq

/-- `Pool` of funds (`challenges/src/lib.rs`). -/
structure Pool where
  staking : Balance
  sub_staking : Balance
  earnings : Balance
deriving DecidableEq

/-- `Progress` of the breakpoint upload (`challenges/src/lib.rs`). -/
structure Progress where
  owner : Account
  total : Nat
  done : Nat
deriving DecidableEq

/-- Challenge record `Metadata` (`challenges/src/lib.rs`). -/
structure Metadata where
  pool : Pool
  beneficiary : Account
  joint_benefits : Bool
  progress : Progress
  last_update : Nat
  remark : Nat
  score : Nat
  pathfinder : Account
  status : Status
  challenger : Account
deriving DecidableEq

/-- The `Default` value of `Metadata`: zero pool, default accounts,
`last_update = 0`, status `EXAMINE`.  This is what the `ValueQuery` storage
`Metadatas` yields for an absent key. -/
def defaultMetadata : Metadata :=
  { pool := ⟨0, 0, 0⟩
    beneficiary := 0
    joint_benefits := false
    progress := ⟨0, 0, 0⟩
    last_update := 0
    remark := 0
    score := 0
    pathfinder := 0
    status := Status.EXAMINE
    challenger := 0 }

/-- `Metadata::total_amount`: checked `staking + sub_staking + earnings`. -/
def total_amount (m : Metadata) : Option Balance :=
  match checkedAdd128 m.pool.staking m.pool.sub_staking with
  | none => none
  | some a => checkedAdd128 a m.pool.earnings

/-- `Metadata::is_all_done`. -/
def is_all_done (m : Metadata) : Bool := m.progress.total == m.progress.done

/-- `Metadata::check_progress`: `total >= done`. -/
def check_progress (m : Metadata) : Bool := m.progress.done ≤ m.progress.total

/-- `Metadata::is_allowed_evidence` with `ChallengePerior = period`. -/
def is_allowed_evidence (m : Metadata) (now period : Nat) : Bool :=
  if !(is_all_done m) && decide (now ≤ m.last_update + period) then false
  else decide (m.last_update + period < now)

/-- `Metadata::new_progress`: overwrites `progress.total` only; `done` is
left unchanged (the local challenges-pallet version, not the primitives one). -/
def new_progress (m : Metadata) (total : Nat) : Metadata :=
  { m with progress := { m.progress with total := total } }

/-- `Metadata::next`: saturating-adds `count` to `progress.done` and, when
everything is done, declares `who` the beneficiary. -/
def nextProg (m : Metadata) (count : Nat) (who : Account) : Metadata :=
  if is_all_done { m with progress := { m.progress with done := satAdd32 m.progress.done count } } then
    { m with
      progress := { m.progress with done := satAdd32 m.progress.done count }
      beneficiary := who }
  else
    { m with progress := { m.progress with done := satAdd32 m.progress.done count } }

/-- `Metadata::set_status`. -/
def set_status (m : Metadata) (s : Status) : Metadata := { m with status := s }

/-- `Metadata::restart`: back to `FREE`, clears `joint_benefits`, and when
`full_probative` holds makes the challenger the new pathfinder. -/
def restartMeta (m : Metadata) (full_probative : Bool) : Metadata :=
  { m with
    status := Status.FREE
    joint_benefits := false
    pathfinder := if full_probative then m.challenger else m.pathfinder }

/-- `SWEEPER_PERIOD` (`primitives/src/lib.rs`). -/
def SWEEPER_PERIOD : Nat := 500

/-- `SweeperFee::is_allowed_sweeper`. -/
def is_allowed_sweeper (last now : Nat) : Bool := decide (last + SWEEPER_PERIOD < now)

/-- `SweeperFee::with_fee`: the sweeper pickup share is
`Perbill::from_perthousand(20)`, i.e. `20_000_000` parts per billion, applied
with `mul_floor`; the remainder is `saturating_sub`. -/
def with_fee (amount : Balance) : Balance × Balance :=
  let sweeper_fee := amount * 20000000 / 1000000000
  (sweeper_fee, amount - sweeper_fee)

/-- `SweeperFee::checked_with_fee`. -/
def checked_with_fee (amount : Balance) (last now : Nat) : Option (Balance × Balance) :=
  if is_allowed_sweeper last now then some (with_fee amount) else none

/-- `Pallet::checked_sweeper_fee` with `ChallengePerior = period`.  A caller
who is neither challenger nor pathfinder takes the sweeper branch; a party
caller passes the `ensure!(last_update + ChallengePerior > now)` gate. -/
def checked_sweeper_fee (c : Metadata) (who : Account) (total : Balance)
    (now period : Nat) : Except Error (Balance × Balance) :=
  if c.challenger ≠ who ∧ c.pathfinder ≠ who then
    match checked_with_fee total c.last_update now with
    | none => .error .TooSoon
    | some fa => .ok fa
  else
    if now < c.last_update + period then .ok (0, total)
    else .error .TooSoon

/-- `ChallengeBase::harvest`.  The record is read through `ValueQuery`
(`none` yields `defaultMetadata`).  The second component of the result is
the list of `release` calls actually performed, as `(account, amount)`
pairs, in order; note that the source releases `sweeper_fee` — not
`pathfinder_amount` / `challenger_amount` — to the pathfinder and the
challenger. -/
def harvest (maybeRecord : Option Metadata) (who : Account) (now period : Nat) :
    Except Error (Option Nat × List (Account × Balance)) :=
  let challenge := maybeRecord.getD defaultMetadata
  match total_amount challenge with
  | none => .error .Overflow
  | some total =>
    match checked_sweeper_fee challenge who total now period with
    | .error e => .error e
    | .ok (sweeper_fee, awards) =>
      let pcs : Balance × Balance × Option Nat :=
        match challenge.status with
        | .FREE => (awards, 0, none)
        | .REPLY => (awards, 0, none)
        | .EXAMINE => (0, awards, some challenge.score)
        | .EVIDENCE => (0, awards, some challenge.score)
        | .ARBITRATION =>
          if challenge.joint_benefits then
            (awards / 2, awards - awards / 2, none)
          else
            (awards, 0, some challenge.score)
      let pathfinder_amount := pcs.1
      let challenger_amount := pcs.2.1
      let maybe_score := pcs.2.2
      let rel1 : List (Account × Balance) :=
        if 0 < sweeper_fee then [(who, sweeper_fee)] else []
      let rel2 : List (Account × Balance) :=
        if 0 < pathfinder_amount then [(challenge.pathfinder, sweeper_fee)] else []
      let rel3 : List (Account × Balance) :=
        if 0 < challenger_amount then [(challenge.challenger, sweeper_fee)] else []
      .ok (maybe_score, rel1 ++ rel2 ++ rel3)

/-- Modelled from the spec: `factor::CHALLENGE_STAKING_AMOUNT` lives in
`zd_primitives::factor`, which is not among the provided sources; the spec
names the constant but not its value.  The claims settled here do not depend
on the value. -/
def CHALLENGE_STAKING_AMOUNT : Balance := 100

/-- `ChallengeBase::new`.  `ledger` is the total amount the currency has
staked from `who`; the source calls `Self::staking(&who,
CHALLENGE_STAKING_AMOUNT)` *before* entering `try_mutate`, so the stake is
added to the ledger no matter how the transactional mutation ends (the
currency call itself is external and modelled as succeeding).  On an error
inside `try_mutate` the metadata write is reverted but the ledger keeps the
stake. -/
def newChallenge (m : Metadata) (ledger : Balance) (who path_finder : Account)
    (fee staking quantity score now period : Nat) :
    Except Error Metadata × Balance :=
  let ledger1 := ledger + CHALLENGE_STAKING_AMOUNT
  if !(is_allowed_evidence m now period) then (.error .NoChallengeAllowed, ledger1)
  else
    match checkedAdd128 m.pool.staking staking with
    | none => (.error .Overflow, ledger1)
    | some ps =>
      match checkedAdd128 m.pool.earnings fee with
      | none => (.error .Overflow, ledger1)
      | some pe =>
        (.ok { m with
                pool := { m.pool with staking := ps, earnings := pe }
                progress := ⟨who, quantity, 0⟩
                beneficiary := path_finder
                last_update := now
                status := Status.EVIDENCE
                score := score },
         ledger1)

/-- `MAX_UPDATE_COUNT` (`challenges/src/lib.rs`). -/
def MAX_UPDATE_COUNT : Nat := 10

/-- `Pallet::get_new_progress`: bounds `count` by `MAX_UPDATE_COUNT`
(error `NoPermission`), checks the owner, and checks `total >= done + count`
(error `ErrProgress`); the `u32` addition wraps. -/
def get_new_progress (p : Progress) (count : Nat) (challenger : Account) :
    Except Error (Nat × Bool) :=
  if MAX_UPDATE_COUNT < count then .error .NoPermission
  else
    let new_done := (p.done + count) % (U32MAX + 1)
    if p.owner ≠ challenger then .error .NoPermission
    else if p.total < new_done then .error .ErrProgress
    else .ok (new_done, p.total == new_done)

/-- The record state inside `ChallengeBase::next` after applying the new
progress: `done` is updated and, when all is done, `who` becomes
beneficiary. -/
def nextApplied (m : Metadata) (who : Account) (newDone : Nat) (allDone : Bool) : Metadata :=
  if allDone then
    { m with progress := { m.progress with done := newDone }, beneficiary := who }
  else
    { m with progress := { m.progress with done := newDone } }

/-- `ChallengeBase::next` on an existing record; `up` is the driver
callback `up(pool.staking, remark, is_all_done) -> new_remark`. -/
def nextOp (m : Metadata) (who : Account) (count : Nat)
    (up : Balance → Nat → Bool → Except Error Nat) : Except Error Metadata :=
  match get_new_progress m.progress count who with
  | .error e => .error e
  | .ok (newDone, allDone) =>
    match up (nextApplied m who newDone allDone).pool.staking
        (nextApplied m who newDone allDone).remark allDone with
    | .error e => .error e
    | .ok v => .ok { nextApplied m who newDone allDone with remark := v }

/-- `ChallengeBase::question` on an existing record. -/
def question (m : Metadata) (who : Account) (index : Nat) : Except Error Metadata :=
  if m.status ≠ Status.REPLY ∨ is_all_done m = false then .error .NoChallengeAllowed
  else if m.challenger ≠ who then .error .NoChallengeAllowed
  else .ok { m with status := Status.EXAMINE, remark := index, beneficiary := who }

/-- The record state inside `ChallengeBase::reply` after
`new_progress(total).next(count, who)`. -/
def replyProgressed (m : Metadata) (who : Account) (total count : Nat) : Metadata :=
  nextProg (new_progress m total) count who

/-- The record stored by a successful `reply`: status moves to `REPLY`
unless the level is complete. -/
def replyOut (m : Metadata) (who : Account) (total count : Nat) : Metadata :=
  if !(is_all_done (replyProgressed m who total count)) then
    set_status (replyProgressed m who total count) Status.REPLY
  else
    replyProgressed m who total count

/-- `ChallengeBase::reply` on an existing record; `up` is the driver
callback `up(is_all_done, remark)`.  There is no `MAX_UPDATE_COUNT` check
here: the only progress guard is `check_progress` (error `TooMany`). -/
def reply (m : Metadata) (who : Account) (total count : Nat)
    (up : Bool → Nat → Except Error Unit) : Except Error Metadata :=
  if m.pathfinder ≠ who then .error .NoPermission
  else if m.status ≠ Status.EXAMINE then .error .NoPermission
  else if !(check_progress (replyProgressed m who total count)) then .error .TooMany
  else
    match up (is_all_done (replyProgressed m who total count))
        (replyOut m who total count).remark with
    | .error e => .error e
    | .ok _ => .ok (replyOut m who total count)

/-- The trivially succeeding `reply` callback. -/
def okUp : Bool → Nat → Except Error Unit := fun _ _ => .ok ()

/-- `ChallengeBase::new_evidence` on an existing record; returns the
optional settled score together with the stored record. -/
def new_evidence (m : Metadata) (who : Account)
    (up : Nat → Nat → Except Error Bool) : Except Error (Option Nat × Metadata) :=
  if m.challenger ≠ who then .error .NoPermission
  else if is_all_done m = false then .error .NoPermission
  else
    match up m.remark m.score with
    | .error e => .error e
    | .ok true => .ok (none, set_status m Status.ARBITRATION)
    | .ok false => .ok (some m.score, restartMeta m true)

/-- `ChallengeBase::arbitral` on an existing record; the second component
lists the `release` calls performed. -/
def arbitral (m : Metadata) (who : Account) (score : Nat)
    (up : Nat → Except Error (Bool × Bool)) :
    Except Error (Metadata × List (Account × Balance)) :=
  if is_all_done m = false then .error .NoPermission
  else
    match up m.remark with
    | .error e => .error e
    | .ok (joint_benefits, restart) =>
      if restart then
        if joint_benefits then
          .ok (restartMeta
                { m with pool := { m.pool with staking := m.pool.staking - m.pool.staking / 2 } }
                (!joint_benefits),
               [(who, m.pool.staking / 2)])
        else
          .ok (restartMeta m (!joint_benefits), [])
      else
        .ok ({ (if joint_benefits then { m with joint_benefits := true } else m) with
                score := score }, [])

/-- Modelled from the spec: `RANGE` is defined in the refresh-seeds
pallet's `lib.rs`, which is not among the provided sources; the spec only
requires `DEEP * RANGE ≤ 8`.  The claims settled here hold for any positive
value. -/
def RANGE : Nat := 2

/-- Modelled from the spec: `DEEP`, the maximum commitment depth, with
`DEEP * RANGE ≤ 8`. -/
def DEEP : Nat := 4

/-- Modelled from the spec: `MAX_SHORTEST_PATH (100)`. -/
def MAX_SHORTEST_PATH : Nat := 100

/-- `ResultHash { order, score, hash }`: one cell of a commitment level. -/
structure ResultHash where
  order : List Nat
  score : Nat
  hash : List Nat
deriving DecidableEq

/-- `Path { nodes, total }`. -/
structure Path where
  nodes : List Account
  total : Nat
deriving DecidableEq

/-- `Pallet::checked_nodes`; the trust graph's `valid_nodes` is an external
trait and is passed in as `validNodes`. -/
def checked_nodes (validNodes : List Account → Except Error Unit)
    (nodes : List Account) (target : Account) : Except Error Unit :=
  if nodes.length < 2 then .error .PathTooShort
  else if !(nodes.contains target) then .error .NoTargetNode
  else validNodes nodes

/-- The `try_fold` inside `Pallet::verify_paths`: checks each path's nodes,
requires `total < 100`, and accumulates `100 / p.total` with `u32`
`saturating_add`.  The Rust division `100 / p.total` panics when
`p.total = 0`; no guard precedes it, which the embedding records as
`Error.Panic`. -/
def pathsScoreFold (validNodes : List Account → Except Error Unit)
    (target : Account) : List Path → Nat → Except Error Nat
  | [], acc => .ok acc
  | p :: ps, acc =>
    match checked_nodes validNodes p.nodes target with
    | .error e => .error e
    | .ok _ =>
      if 100 ≤ p.total then .error .LengthTooLong
      else if p.total = 0 then .error .Panic
      else pathsScoreFold validNodes target ps (satAdd32 acc (100 / p.total))

/-- `Pallet::verify_paths`: folds the per-path score contributions and
compares the total with `result_hash.score`. -/
def verify_paths (validNodes : List Account → Except Error Unit)
    (paths : List Path) (target : Account) (result_hash : ResultHash) :
    Except Error Unit :=
  match pathsScoreFold validNodes target paths 0 with
  | .error e => .error e
  | .ok total_score =>
    if total_score = result_hash.score then .ok () else .error .ScoreMismatch

/-- `Pallet::checked_paths_vec`; `mfo` stands for the external
`make_full_order(start, stop, deep)` (a sha1-based fingerprint) with `deep`
fixed.  `get_ends` unwraps `nodes.last()`, panicking on an empty node list. -/
def checked_paths_vec (validNodes : List Account → Except Error Unit)
    (mfo : Account → Account → List Nat) :
    List Path → Account → List Nat → Except Error Unit
  | [], _, _ => .ok ()
  | p :: ps, target, order =>
    if p.total = 0 ∨ MAX_SHORTEST_PATH ≤ p.total then .error .PathTooLong
    else
      match p.nodes.head?, p.nodes.getLast? with
      | some start, some stop =>
        if mfo start stop ≠ order then .error .OrderNotMatch
        else
          match checked_nodes validNodes p.nodes target with
          | .error e => .error e
          | .ok _ => checked_paths_vec validNodes mfo ps target order
      | _, _ => .error .Panic

/-- The `try_fold` inside `Pallet::verify_result_hashs`: each cell's order
must have length `RANGE`, and the scores are accumulated with `u64`
`checked_add` (error `Overflow`). -/
def rhScoreFold : List ResultHash → Nat → Except Error Nat
  | [], acc => .ok acc
  | r :: rs, acc =>
    if r.order.length ≠ RANGE then .error .OrderNotMatch
    else if acc + r.score < U64MOD then rhScoreFold rs (acc + r.score)
    else .error .Overflow

/-- `Pallet::verify_result_hashs` with the target's candidate score passed
as `candidateScore` (the storage read `Self::get_candidate(&target).score`).
An empty stack is accepted outright; otherwise the deepest level's checked
score sum must equal the candidate score (depth 1) or the parent cell's
score at `index` (depth > 1, a panicking Rust index when out of bounds). -/
def verify_result_hashs (result_hashs : List (List ResultHash))
    (index : Nat) (candidateScore : Nat) : Except Error Unit :=
  match result_hashs.getLast? with
  | none => .ok ()
  | some lastLvl =>
    match rhScoreFold lastLvl 0 with
    | .error e => .error e
    | .ok fold_score =>
      if result_hashs.length = 1 then
        if fold_score = candidateScore then .ok () else .error .ScoreMismatch
      else
        match (result_hashs.getD (result_hashs.length - 2) []).get? index with
        | none => .error .Panic
        | some cell =>
          if fold_score = cell.score then .ok () else .error .ScoreMismatch

/-- The trivially succeeding `valid_nodes` oracle. -/
def okNodes : List Account → Except Error Unit := fun _ => .ok ()

/-- C4: leaf path verification is claimed to enforce `1 ≤ total < 100`,
with a `total = 0` path rejected before the division `100 / p.total`.  In
`verify_paths` there is no such guard: the path `⟨[1, 2], 0⟩` (valid nodes,
containing the target, `total = 0`) passes `total < 100` and reaches the
division, which panics in Rust — while the sibling `checked_paths_vec` does
reject the same path with `PathTooLong` before any division. -/
theorem verifyPathsDivByZeroPanic :
    verify_paths okNodes [⟨[1, 2], 0⟩] 2 ⟨[], 0, []⟩ = .error .Panic ∧
    checked_paths_vec okNodes (fun _ _ => []) [⟨[1, 2], 0⟩] 2 [] =
      .error .PathTooLong := by
  exact ⟨rfl, rfl⟩

/-- The record used to exhibit the settlement mismatch: a harvestable
`FREE` record with a pool of 1000. -/
def mC1 : Metadata :=
  { defaultMetadata with
    pool := ⟨1000, 0, 0⟩
    pathfinder := 1
    challenger := 2
    status := Status.FREE }

/-- C1: for every challenge record and every successful call to `harvest`,
the sum of all token amounts released equals the pool total, and a party
with a positive computed amount is released exactly that amount.  The code
violates this: for the `FREE` record `mC1` with pool total 1000, a sweeper
harvest at block 501 computes `sweeper_fee = 20` and `pathfinder_amount =
980`, yet releases only `sweeper_fee` to the pathfinder, so the released
amounts are `[(3, 20), (1, 20)]`, summing to 40 ≠ 1000. -/
theorem harvestReleasesMismatch :
    harvest (some mC1) 3 501 100 = .ok (none, [(3, 20), (1, 20)]) ∧
    total_amount mC1 = some 1000 ∧
    20 + 20 ≠ 1000 := by
  refine ⟨?_, ?_, by decide⟩
  · rfl
  · rfl

/-- The record used for the temporal-gate claims: challenger 2, fresh
`last_update = 0`. -/
def mC2 : Metadata := { defaultMetadata with challenger := 2 }

/-- C2: a party can successfully harvest only once the challenge period has
elapsed (`TooSoon` whenever `last_update + ChallengePerior > now`).  The
code inverts the gate: with `last_update = 0` and period 100, the
challenger's harvest fee check succeeds at block 50 (period not elapsed)
and fails `TooSoon` at block 200 (period elapsed). -/
theorem partyHarvestGateInverted :
    checked_sweeper_fee mC2 2 7 50 100 = .ok (0, 7) ∧
    mC2.last_update + 100 > 50 ∧
    checked_sweeper_fee mC2 2 7 200 100 = .error .TooSoon ∧
    mC2.last_update + 100 ≤ 200 := by
  refine ⟨rfl, by decide, rfl, by decide⟩

/-- The record used for the atomicity claim: an all-done record last
updated at block 100, so `new` at block 150 with period 100 must fail
`NoChallengeAllowed`. -/
def mC3 : Metadata := { defaultMetadata with last_update := 100 }

/-- C3: `new` is claimed to be atomic, with the `CHALLENGE_STAKING_AMOUNT`
stake performed inside the same transactional scope and reverted on error.
The code stakes before `try_mutate`: here `new` fails `NoChallengeAllowed`
(prior record too recent), yet the caller's staked ledger grows from 5 to
`5 + CHALLENGE_STAKING_AMOUNT`. -/
theorem newStakingSurvivesFailure :
    newChallenge mC3 5 9 1 0 0 0 0 150 100 =
      (.error .NoChallengeAllowed, 5 + CHALLENGE_STAKING_AMOUNT) ∧
    5 + CHALLENGE_STAKING_AMOUNT ≠ 5 := by
  exact ⟨rfl, by decide⟩

/-- C9: `harvest` never fails with `NonExistent`.  For a target with no
stored record the `ValueQuery` storage yields `defaultMetadata` (status
`EXAMINE`, zero pool, default accounts, `last_update = 0`), so any caller
distinct from the default challenger/pathfinder account takes the sweeper
branch, succeeds once `SWEEPER_PERIOD < now`, performs no releases, and
gets back `some 0`, the default score. -/
theorem harvestDefaultOk (who : Account) (now period : Nat)
    (hwho : who ≠ 0) (hnow : SWEEPER_PERIOD < now) :
    harvest none who now period = .ok (some 0, []) := by
  have h0 : (0 : Nat) ≠ who := Ne.symm hwho
  have hallow : is_allowed_sweeper 0 now = true := by
    unfold is_allowed_sweeper
    simp only [decide_eq_true_eq]
    omega
  have hsweep : checked_sweeper_fee defaultMetadata who 0 now period = .ok (0, 0) := by
    unfold checked_sweeper_fee
    rw [if_pos ⟨h0, h0⟩]
    unfold checked_with_fee
    rw [show defaultMetadata.last_update = 0 from rfl, if_pos hallow]
    rfl
  have htot : total_amount defaultMetadata = some 0 := rfl
  unfold harvest
  simp only [Option.getD_none, htot, hsweep]
  rfl

/-- Witness for C9 at `who = 3`, `now = 501`, `period = 100`. -/
theorem harvestDefaultOkWitness :
    ((3 : Account) ≠ 0 ∧ SWEEPER_PERIOD < 501) ∧
    harvest none 3 501 100 = .ok (some 0, []) :=
  ⟨⟨by decide, by decide⟩, harvestDefaultOk 3 501 100 (by decide) (by decide)⟩

lemma nextProg_progress (m : Metadata) (count : Nat) (who : Account) :
    (nextProg m count who).progress =
      ⟨m.progress.owner, m.progress.total, satAdd32 m.progress.done count⟩ := by
  unfold nextProg
  split <;> rfl

lemma nextProg_last_update (m : Metadata) (count : Nat) (who : Account) :
    (nextProg m count who).last_update = m.last_update := by
  unfold nextProg
  split <;> rfl

lemma replyProgressed_progress (m : Metadata) (who : Account) (total count : Nat) :
    (replyProgressed m who total count).progress =
      ⟨m.progress.owner, total, satAdd32 m.progress.done count⟩ := by
  unfold replyProgressed
  rw [nextProg_progress]
  rfl

lemma replyProgressed_last_update (m : Metadata) (who : Account) (total count : Nat) :
    (replyProgressed m who total count).last_update = m.last_update := by
  unfold replyProgressed
  rw [nextProg_last_update]
  rfl

lemma replyOut_progress (m : Metadata) (who : Account) (total count : Nat) :
    (replyOut m who total count).progress =
      ⟨m.progress.owner, total, satAdd32 m.progress.done count⟩ := by
  unfold replyOut
  split
  · show (replyProgressed m who total count).progress = _
    exact replyProgressed_progress m who total count
  · exact replyProgressed_progress m who total count

lemma replyOut_last_update (m : Metadata) (who : Account) (total count : Nat) :
    (replyOut m who total count).last_update = m.last_update := by
  unfold replyOut
  split
  · show (replyProgressed m who total count).last_update = _
    exact replyProgressed_last_update m who total count
  · exact replyProgressed_last_update m who total count

lemma nextApplied_last_update (m : Metadata) (who : Account) (newDone : Nat) (allDone : Bool) :
    (nextApplied m who newDone allDone).last_update = m.last_update := by
  unfold nextApplied
  split <;> rfl

/-- The record used for the `reply` counterexamples: pathfinder 1, default
`EXAMINE` status, zero progress. -/
def mC5 : Metadata := { defaultMetadata with pathfinder := 1 }

/-- C5 counterexample: `reply(total = 100, count = 11)` with
`count > MAX_UPDATE_COUNT` succeeds — the claimed unconditional `TooMany`
failure does not happen. -/
theorem replyCountUnboundedCex :
    MAX_UPDATE_COUNT < 11 ∧
    reply mC5 1 100 11 okUp =
      .ok { mC5 with progress := ⟨0, 100, 11⟩, status := Status.REPLY } :=
  ⟨by decide, rfl⟩

/-- C5 amended: with the pathfinder calling in `EXAMINE` status and a
succeeding driver callback, `reply` fails with `TooMany` exactly when the
saturated `done + count` exceeds the new `total`; the `count ≤
MAX_UPDATE_COUNT` bound is not checked by `reply` at all (it is enforced,
as `NoPermission`, only by `get_new_progress`, which only `next` uses). -/
theorem replyTooManyIff (m : Metadata) (who : Account) (total count : Nat)
    (hpf : m.pathfinder = who) (hst : m.status = Status.EXAMINE) :
    (reply m who total count okUp = .error .TooMany ↔
      total < satAdd32 m.progress.done count) := by
  have hcp : check_progress (replyProgressed m who total count) =
      decide (satAdd32 m.progress.done count ≤ total) := by
    unfold check_progress
    rw [replyProgressed_progress]
  unfold reply
  rw [if_neg (by simp [hpf]), if_neg (by simp [hst]), hcp]
  by_cases hlt : total < satAdd32 m.progress.done count
  · rw [if_pos (by simp; omega)]
    simp [hlt]
  · rw [if_neg (by simp; omega)]
    unfold okUp
    simp [hlt]

/-- Witness for C5's amended claim at the spec's own scenario
`reply(total = 8, count = 11)` with `done = 0`: fails `TooMany`. -/
theorem replyTooManyIffWitness :
    (mC5.pathfinder = 1 ∧ mC5.status = Status.EXAMINE ∧
      (8 : Nat) < satAdd32 mC5.progress.done 11) ∧
    reply mC5 1 8 11 okUp = .error .TooMany :=
  ⟨⟨by decide, by decide, by decide⟩,
    (replyTooManyIff mC5 1 8 11 (by decide) (by decide)).mpr (by decide)⟩

/-- The record used for the `question` counterexample: an all-done `REPLY`
record last updated at block 5, challenger 2. -/
def mC6 : Metadata :=
  { defaultMetadata with status := Status.REPLY, challenger := 2, last_update := 5 }

/-- C6 counterexample: at current block 10, a successful `question` leaves
`last_update` at its old value 5 — `question` does not even read the block
number, so the claimed `last_update := now` bump does not happen. -/
theorem questionKeepsLastUpdateCex :
    question mC6 2 9 =
      .ok { mC6 with status := Status.EXAMINE, remark := 9, beneficiary := 2 } ∧
    ({ mC6 with status := Status.EXAMINE, remark := 9, beneficiary := 2 } : Metadata).last_update = 5 ∧
    (5 : Nat) ≠ 10 :=
  ⟨rfl, rfl, by decide⟩

/-- C6 amended: among the six state-advancing operations, only `new` sets
`last_update` to the current block number; every successful `reply`,
`question`, `next`, `new_evidence` and `arbitral` leaves `last_update`
unchanged. -/
theorem lastUpdateOnlyNewBumps :
    (∀ (m : Metadata) (ledger : Balance) (who pf : Account)
        (fee staking quantity score now period : Nat) (m' : Metadata) (l' : Balance),
        newChallenge m ledger who pf fee staking quantity score now period = (.ok m', l') →
        m'.last_update = now) ∧
    (∀ (m : Metadata) (who : Account) (total count : Nat)
        (up : Bool → Nat → Except Error Unit) (m' : Metadata),
        reply m who total count up = .ok m' → m'.last_update = m.last_update) ∧
    (∀ (m : Metadata) (who : Account) (index : Nat) (m' : Metadata),
        question m who index = .ok m' → m'.last_update = m.last_update) ∧
    (∀ (m : Metadata) (who : Account) (count : Nat)
        (up : Balance → Nat → Bool → Except Error Nat) (m' : Metadata),
        nextOp m who count up = .ok m' → m'.last_update = m.last_update) ∧
    (∀ (m : Metadata) (who : Account) (up : Nat → Nat → Except Error Bool)
        (r : Option Nat × Metadata),
        new_evidence m who up = .ok r → r.2.last_update = m.last_update) ∧
    (∀ (m : Metadata) (who : Account) (score : Nat)
        (up : Nat → Except Error (Bool × Bool))
        (r : Metadata × List (Account × Balance)),
        arbitral m who score up = .ok r → r.1.last_update = m.last_update) := by
  refine ⟨?_, ?_, ?_, ?_, ?_, ?_⟩
  · intro m ledger who pf fee staking quantity score now period m' l' h
    unfold newChallenge at h
    split at h
    · simp at h
    · split at h
      · simp at h
      · split at h
        · simp at h
        · rw [Prod.mk.injEq] at h
          obtain ⟨h1, -⟩ := h
          injection h1 with h2
          subst h2
          rfl
  · intro m who total count up m' h
    unfold reply at h
    split at h
    · simp at h
    · split at h
      · simp at h
      · split at h
        · simp at h
        · split at h
          · simp at h
          · injection h with h1
            subst h1
            exact replyOut_last_update m who total count
  · intro m who index m' h
    unfold question at h
    split at h
    · simp at h
    · split at h
      · simp at h
      · injection h with h1
        subst h1
        rfl
  · intro m who count up m' h
    unfold nextOp at h
    split at h
    · simp at h
    · split at h
      · simp at h
      · injection h with h1
        subst h1
        exact nextApplied_last_update ..
  · intro m who up r h
    unfold new_evidence at h
    split at h
    · simp at h
    · split at h
      · simp at h
      · split at h
        · simp at h
        · injection h with h1
          subst h1
          rfl
        · injection h with h1
          subst h1
          rfl
  · intro m who score up r h
    unfold arbitral at h
    split at h
    · simp at h
    · split at h
      · simp at h
      · split at h
        · split at h
          · injection h with h1
            subst h1
            rfl
          · injection h with h1
            subst h1
            rfl
        · injection h with h1
          subst h1
          split <;> rfl

/-- Witness for C6's amended claim: a concrete successful `question` whose
output's `last_update` equals the input's. -/
theorem lastUpdateOnlyNewBumpsWitness :
    question mC6 2 5 =
      .ok { mC6 with status := Status.EXAMINE, remark := 5, beneficiary := 2 } ∧
    ({ mC6 with status := Status.EXAMINE, remark := 5, beneficiary := 2 } : Metadata).last_update =
      mC6.last_update :=
  ⟨rfl,
    lastUpdateOnlyNewBumps.2.2.1 mC6 2 5
      { mC6 with status := Status.EXAMINE, remark := 5, beneficiary := 2 } rfl⟩

/-- The record used for the saturation counterexample: pathfinder 1 with
`progress.done` already at the largest `u32`. -/
def mC10 : Metadata :=
  { defaultMetadata with pathfinder := 1, progress := ⟨0, 0, 4294967295⟩ }

/-- C10 counterexample: a successful `reply(total = 4294967295, count = 1)`
on a record with `done = 4294967295` leaves `done` at `4294967295`
(`saturating_add`), not at its previous value plus `count`. -/
theorem replyDoneSaturatesCex :
    Except.map (fun m => m.progress.done) (reply mC10 1 4294967295 1 okUp) =
      .ok 4294967295 ∧
    mC10.progress.done + 1 ≠ 4294967295 :=
  ⟨rfl, by decide⟩

/-- C10 amended: `Metadata::new_progress` overwrites `progress.total` and
leaves `progress.done` unchanged, and after every successful
`reply(total, count)` the record's `progress.done` equals the saturated sum
`min(done + count, u32::MAX)` of its previous `done` and `count` (equal to
`done + count` whenever that sum fits in a `u32`). -/
theorem replyDoneSaturating (m : Metadata) (who : Account) (total count : Nat)
    (up : Bool → Nat → Except Error Unit) (m' : Metadata)
    (h : reply m who total count up = .ok m') :
    m'.progress.done = satAdd32 m.progress.done count ∧
    (new_progress m total).progress.done = m.progress.done := by
  refine ⟨?_, rfl⟩
  unfold reply at h
  split at h
  · simp at h
  · split at h
    · simp at h
    · split at h
      · simp at h
      · split at h
        · simp at h
        · injection h with h1
          subst h1
          rw [replyOut_progress]

/-- Witness for C10's amended claim at a concrete successful `reply`. -/
theorem replyDoneSaturatingWitness :
    reply mC5 1 10 4 okUp =
      .ok { mC5 with progress := ⟨0, 10, 4⟩, status := Status.REPLY } ∧
    ({ mC5 with progress := ⟨0, 10, 4⟩, status := Status.REPLY } : Metadata).progress.done =
      satAdd32 mC5.progress.done 4 :=
  ⟨rfl,
    (replyDoneSaturating mC5 1 10 4 okUp
      { mC5 with progress := ⟨0, 10, 4⟩, status := Status.REPLY } rfl).1⟩

/-- The deepest commitment level of a stack. -/
def deepestLevel (rhs : List (List ResultHash)) : List ResultHash := rhs.getLastD []

/-- The plain sum of the `score` fields of a level. -/
def levelScoreSum (lvl : List ResultHash) : Nat := (lvl.map (fun r => r.score)).sum

/-- The score the deepest level must reproduce, following the spec's words
(section 4.F): the target candidate's score when the stack has depth 1, the
parent cell's score at `index` when the depth is greater (none when `index`
is out of bounds there). -/
def expectedScore (rhs : List (List ResultHash)) (index candidateScore : Nat) : Option Nat :=
  if rhs.length = 1 then some candidateScore
  else ((rhs.getD (rhs.length - 2) []).get? index).map (fun r => r.score)

lemma levelScoreSum_cons (r : ResultHash) (rs : List ResultHash) :
    levelScoreSum (r :: rs) = r.score + levelScoreSum rs := by
  simp [levelScoreSum]

lemma rhScoreFold_ok_iff (lvl : List ResultHash) : ∀ acc s : Nat, acc < U64MOD →
    (rhScoreFold lvl acc = .ok s ↔
      ((∀ r ∈ lvl, r.order.length = RANGE) ∧ acc + levelScoreSum lvl < U64MOD ∧
        s = acc + levelScoreSum lvl)) := by
  induction lvl with
  | nil =>
    intro acc s hacc
    simp only [rhScoreFold, List.not_mem_nil, false_implies, implies_true, true_and,
      levelScoreSum, List.map_nil, List.sum_nil, Nat.add_zero]
    constructor
    · intro h
      injection h with h1
      exact ⟨hacc, h1.symm⟩
    · rintro ⟨-, h⟩
      rw [h]
  | cons r rs ih =>
    intro acc s hacc
    rw [levelScoreSum_cons]
    simp only [rhScoreFold, List.mem_cons]
    by_cases hlen : r.order.length = RANGE
    · rw [if_neg (by simp [hlen])]
      by_cases hov : acc + r.score < U64MOD
      · rw [if_pos hov, ih (acc + r.score) s hov]
        constructor
        · rintro ⟨h1, h2, h3⟩
          refine ⟨?_, by omega, by omega⟩
          rintro x (rfl | hx)
          · exact hlen
          · exact h1 x hx
        · rintro ⟨h1, h2, h3⟩
          exact ⟨fun x hx => h1 x (Or.inr hx), by omega, by omega⟩
      · rw [if_neg hov]
        constructor
        · intro h
          exact Except.noConfusion h
        · rintro ⟨-, h2, -⟩
          exact absurd h2 (by omega)
    · rw [if_pos hlen]
      constructor
      · intro h
        exact Except.noConfusion h
      · rintro ⟨h1, -, -⟩
        exact absurd (h1 r (Or.inl rfl)) hlen

/-- C7: `verify_result_hashs` accepts a non-empty stack iff every order in
the deepest level has length exactly `RANGE` and the overflow-checked sum
of that level's scores equals the candidate score (depth 1) or the parent
cell's score at `index` (depth > 1, with an in-bounds index); an empty
stack is always accepted. -/
theorem verifyResultHashsIff (rhs : List (List ResultHash)) (index candidateScore : Nat) :
    verify_result_hashs rhs index candidateScore = .ok () ↔
      (rhs = [] ∨
        ((∀ r ∈ deepestLevel rhs, r.order.length = RANGE) ∧
          levelScoreSum (deepestLevel rhs) < U64MOD ∧
          expectedScore rhs index candidateScore =
            some (levelScoreSum (deepestLevel rhs)))) := by
  unfold verify_result_hashs
  cases hlast : rhs.getLast? with
  | none =>
    have hnil : rhs = [] := List.getLast?_eq_none_iff.mp hlast
    simp [hnil]
  | some lastLvl =>
    have hne : ¬(rhs = []) := by
      intro h
      subst h
      simp at hlast
    have hdl : deepestLevel rhs = lastLvl := by
      unfold deepestLevel
      rw [List.getLastD_eq_getLast?, hlast]
      rfl
    rw [hdl, or_iff_right hne]
    dsimp only
    cases hfold : rhScoreFold lastLvl 0 with
    | error e =>
      dsimp only
      constructor
      · intro h
        exact Except.noConfusion h
      · rintro ⟨h1, h2, -⟩
        have hok := (rhScoreFold_ok_iff lastLvl 0 (levelScoreSum lastLvl)
          (by decide)).mpr ⟨h1, by omega, by omega⟩
        rw [hfold] at hok
        exact Except.noConfusion hok
    | ok fold =>
      dsimp only
      obtain ⟨hlen, hov, heq⟩ :=
        (rhScoreFold_ok_iff lastLvl 0 fold (by decide)).mp hfold
      have hfs : fold = levelScoreSum lastLvl := by omega
      have hsum : levelScoreSum lastLvl < U64MOD := by omega
      by_cases hone : rhs.length = 1
      · rw [if_pos hone]
        unfold expectedScore
        rw [if_pos hone]
        constructor
        · intro h
          split at h
          · next hfc =>
            exact ⟨hlen, hsum, congrArg some (by omega)⟩
          · exact Except.noConfusion h
        · rintro ⟨-, -, h3⟩
          injection h3 with h4
          rw [if_pos (by omega)]
      · rw [if_neg hone]
        unfold expectedScore
        rw [if_neg hone]
        cases hget : (rhs.getD (rhs.length - 2) []).get? index with
        | none =>
          dsimp only
          constructor
          · intro h
            exact Except.noConfusion h
          · rintro ⟨-, -, h3⟩
            simp at h3
        | some cell =>
          dsimp only
          constructor
          · intro h
            split at h
            · next hfc =>
              refine ⟨hlen, hsum, ?_⟩
              simp only [Option.map_some']
              exact congrArg some (by omega)
            · exact Except.noConfusion h
          · rintro ⟨-, -, h3⟩
            simp only [Option.map_some'] at h3
            injection h3 with h4
            rw [if_pos (by omega)]

/-- Lexicographic strict `<` on byte lists, matching Rust's `Ord` for
`&[u8]` slices (a strict prefix is smaller). -/
def lexLtBytes : List Nat → List Nat → Bool
  | _, [] => false
  | [], _ :: _ => true
  | a :: xs, b :: ys => decide (a < b) || (decide (a = b) && lexLtBytes xs ys)

/-- Big-endian base-256 digits of `x`, `k` bytes wide. -/
def natToBEBytes : Nat → Nat → List Nat
  | _, 0 => []
  | x, k + 1 => natToBEBytes (x / 256) k ++ [x % 256]

/-- Modelled from the spec: `FullOrder::from_u64(x, deep).0` recovers the
committed order bytes from the packed 64-bit key (`zd-utilities`'
`FullOrder` is not among the provided sources).  The spec states the
packing is reversible, and both call sites in `evidence_of_missed` compare
the result against byte sequences of length `(deep - 1) * RANGE`, which
fixes the unpacked width. -/
def fullOrderFromU64 (x deep : Nat) : List Nat := natToBEBytes x ((deep - 1) * RANGE)

/-- The `Err` branch (pathfinder published no concrete paths) of the
closure in `Pallet::evidence_of_missed`: `lvl` is the deepest committed
level, `order` the packed `u64` carried in the record's `score` slot,
`ufo = make_full_order(start, stop, deep)` the fingerprint of the claimed
nodes, and `index` the claimed insertion position. -/
def missed_check (lvl : List ResultHash) (order : Nat) (ufo : List Nat)
    (deep index : Nat) : Except Error Bool :=
  if lvl.length < index then .error .IndexExceedsMaximum
  else if 1 < deep ∧ fullOrderFromU64 order deep ≠ ufo.take (RANGE * (deep - 1)) then
    .error .NotMatch
  else if 0 < index ∧
      lexLtBytes (lvl.getD (index - 1) ⟨[], 0, []⟩).order (ufo.take RANGE) = false then
    .error .PathIndexError
  else if index < lvl.length ∧
      lexLtBytes (ufo.take RANGE) (lvl.getD index ⟨[], 0, []⟩).order = false then
    .error .PathIndexError
  else .ok true

/-- The bracketing acceptance condition, following the spec's words
(sections 4.F and 4.H): in-range insertion index, the neighbor below (if
any) strictly smaller and the neighbor above (if any) strictly greater
than the first `RANGE` bytes of the fingerprint, and (when `deep > 1`) a
high-order prefix matching the committed full order down to depth
`deep - 1`. -/
def bracketed (lvl : List ResultHash) (order : Nat) (ufo : List Nat)
    (deep index : Nat) : Prop :=
  index ≤ lvl.length ∧
  (1 < deep → fullOrderFromU64 order deep = ufo.take (RANGE * (deep - 1))) ∧
  (0 < index → lexLtBytes (lvl.getD (index - 1) ⟨[], 0, []⟩).order (ufo.take RANGE) = true) ∧
  (index < lvl.length → lexLtBytes (ufo.take RANGE) (lvl.getD index ⟨[], 0, []⟩).order = true)

instance (lvl : List ResultHash) (order : Nat) (ufo : List Nat) (deep index : Nat) :
    Decidable (bracketed lvl order ufo deep index) := by
  unfold bracketed
  infer_instance

lemma missed_check_ok_iff (lvl : List ResultHash) (order : Nat) (ufo : List Nat)
    (deep index : Nat) :
    missed_check lvl order ufo deep index = .ok true ↔
      bracketed lvl order ufo deep index := by
  unfold missed_check bracketed
  split_ifs with h1 h2 h3 h4
  · constructor
    · intro h
      simp at h
    · rintro ⟨ha, -⟩
      exact absurd h1 (Nat.not_lt.mpr ha)
  · constructor
    · intro h
      simp at h
    · rintro ⟨-, hb, -, -⟩
      exact h2.2 (hb h2.1)
  · constructor
    · intro h
      simp at h
    · rintro ⟨-, -, hc, -⟩
      rw [hc h3.1] at h3
      exact Bool.noConfusion h3.2
  · constructor
    · intro h
      simp at h
    · rintro ⟨-, -, -, hd⟩
      rw [hd h4.1] at h4
      exact Bool.noConfusion h4.2
  · constructor
    · intro _
      refine ⟨by omega, ?_, ?_, ?_⟩
      · intro hdp
        by_contra hneq
        exact h2 ⟨hdp, hneq⟩
      · intro hi
        cases hb : lexLtBytes (lvl.getD (index - 1) ⟨[], 0, []⟩).order (ufo.take RANGE) with
        | false => exact absurd ⟨hi, hb⟩ h3
        | true => rfl
      · intro hi
        cases hb : lexLtBytes (ufo.take RANGE) (lvl.getD index ⟨[], 0, []⟩).order with
        | false => exact absurd ⟨hi, hb⟩ h4
        | true => rfl
    · intro _
      rfl

lemma missed_check_ne_ok_false (lvl : List ResultHash) (order : Nat) (ufo : List Nat)
    (deep index : Nat) :
    missed_check lvl order ufo deep index ≠ .ok false := by
  unfold missed_check
  split_ifs <;> simp

/-- `Pallet::evidence_of_missed` specialised to its no-published-paths
branch: `c` is the existing challenge record, `rhs` the committed
`ResultHashsSets` for the target (so `deep = rhs.length`), `ufo` the
external sha1 fingerprint `make_full_order(start, stop, deep)` of the
claimed nodes, and `index` the claimed insertion position.  The result
pairs the stored record with the `MissedPaths` entry after the call:
`some nodes` when the claim is kept pending arbitration, `none` when a
restart cleared the challenge storage. -/
def evidence_of_missed_nopaths (c : Metadata) (who : Account) (nodes : List Account)
    (rhs : List (List ResultHash)) (ufo : List Nat) (index : Nat) :
    Except Error (Metadata × Option (List Account)) :=
  match new_evidence c who
      (fun _ order => missed_check (rhs.getLastD []) order ufo rhs.length index) with
  | .error e => .error e
  | .ok (some _, c1) => .ok (c1, none)
  | .ok (none, c1) => .ok (c1, some nodes)

/-- C8: in `evidence_of_missed`, when the pathfinder has published no
concrete paths for the target, the omitted-path claim is accepted iff the
insertion index is at most the deepest level's length, the cell below (when
`index > 0`) has order strictly less than the first `RANGE` bytes of the
fingerprint, the cell at `index` (when in range) has order strictly
greater, and (when `deep > 1`) the high-order prefix of the fingerprint
matches the committed full order down to depth `deep - 1`; on acceptance
the record moves to `ARBITRATION` and the claimed node sequence is stored
under `MissedPaths`. -/
theorem evidenceOfMissedBracketing (c : Metadata) (who : Account)
    (nodes : List Account) (rhs : List (List ResultHash)) (ufo : List Nat) (index : Nat)
    (hch : c.challenger = who) (hdone : is_all_done c = true) :
    (exceptIsOk (evidence_of_missed_nopaths c who nodes rhs ufo index) = true ↔
      bracketed (rhs.getLastD []) c.score ufo rhs.length index) ∧
    (bracketed (rhs.getLastD []) c.score ufo rhs.length index →
      evidence_of_missed_nopaths c who nodes rhs ufo index =
        .ok (set_status c Status.ARBITRATION, some nodes)) := by
  unfold evidence_of_missed_nopaths new_evidence
  rw [if_neg (by simp [hch]), if_neg (by simp [hdone])]
  dsimp only
  cases hmc : missed_check (rhs.getLastD []) c.score ufo rhs.length index with
  | error e =>
    dsimp only
    have hnb : ¬ bracketed (rhs.getLastD []) c.score ufo rhs.length index := by
      intro hb
      have h2 := (missed_check_ok_iff (rhs.getLastD []) c.score ufo rhs.length index).mpr hb
      rw [hmc] at h2
      exact Except.noConfusion h2
    refine ⟨⟨fun h => ?_, fun hb => absurd hb hnb⟩, fun hb => absurd hb hnb⟩
    simp [exceptIsOk] at h
  | ok b =>
    cases b with
    | false => exact absurd hmc (missed_check_ne_ok_false _ _ _ _ _)
    | true =>
      dsimp only
      have hb := (missed_check_ok_iff (rhs.getLastD []) c.score ufo rhs.length index).mp hmc
      exact ⟨⟨fun _ => hb, fun _ => rfl⟩, fun _ => rfl⟩

/-- The record for the C8 witness: challenger 7, all uploads done. -/
def mC8 : Metadata := { defaultMetadata with challenger := 7 }

/-- A one-level commitment stack with orders `[48,48]` and `[57,57]`. -/
def rhsC8 : List (List ResultHash) := [[⟨[48, 48], 5, []⟩, ⟨[57, 57], 6, []⟩]]

/-- A fingerprint `[50,50]` falling strictly between the two orders. -/
def ufoC8 : List Nat := [50, 50]

/-- Witness for C8: the bracketed fingerprint `[50,50]` at insertion index
1 is accepted and stored under `MissedPaths`. -/
theorem evidenceOfMissedBracketingWitness :
    bracketed (rhsC8.getLastD []) mC8.score ufoC8 rhsC8.length 1 ∧
    evidence_of_missed_nopaths mC8 7 [1, 2] rhsC8 ufoC8 1 =
      .ok (set_status mC8 Status.ARBITRATION, some [1, 2]) :=
  ⟨by decide,
    (evidenceOfMissedBracketing mC8 7 [1, 2] rhsC8 ufoC8 1 (by decide) (by decide)).2
      (by decide)⟩

end ZeroDAO
